import Mathlib

/-!
Verification of one pass of the Loop subdivision algorithm
(`computer graphics/src/loop.cpp`).

The embedding models the C++ code shallowly:
* `point3d` (3-component coordinates) is embedded with exact rational
  coordinates; the float arithmetic of the code is idealised as exact
  field arithmetic.
* the companion structures declared in `loop.hpp` / `geometry.hpp`
  (whose sources are not part of the repository snapshot) — `EdgeList`,
  `isBoundaryEdge`, `computeNormal`, `angleAtVertex`, `normalize` — are
  modelled from the specification and marked as such in doc comments.
* the normal-recomputation stage, which involves square roots and
  arc-cosines, is modelled over the real numbers (`vec3R`).
* `std::vector` reads `v[i]` are modelled by `List.getD` (reads past the
  end, undefined behaviour in C++, read the default element), writes
  `v[i] = x` by `List.set` (out-of-range writes are dropped), `push_back`
  by appending, and the `assert` in the repositioning loop by an
  `Option` result: `none` means the assertion fired.
-/

namespace Loop

/-- Vertex index type (`idxtype` in the source). -/
abbrev idxtype := Nat

/-- A 3-component coordinate (`point3d` of `geometry.hpp`), with float
components idealised as rationals. -/
structure point3d where
  x : ℚ
  y : ℚ
  z : ℚ
deriving DecidableEq

/-- A triangle: an ordered triple of vertex indices (`face`). -/
structure face where
  v1 : idxtype
  v2 : idxtype
  v3 : idxtype
deriving DecidableEq

/-- An edge: a pair of vertex indices, compared without order (`edge`). -/
structure edge where
  first : idxtype
  second : idxtype
deriving DecidableEq

instance : Zero point3d := ⟨⟨0, 0, 0⟩⟩

instance : Add point3d := ⟨fun a b => ⟨a.x + b.x, a.y + b.y, a.z + b.z⟩⟩

instance : SMul ℚ point3d := ⟨fun q p => ⟨q * p.x, q * p.y, q * p.z⟩⟩

instance : AddCommMonoid point3d where
  add_assoc := fun ⟨a1, a2, a3⟩ ⟨b1, b2, b3⟩ ⟨c1, c2, c3⟩ => by
    show point3d.mk (a1 + b1 + c1) (a2 + b2 + c2) (a3 + b3 + c3) =
      point3d.mk (a1 + (b1 + c1)) (a2 + (b2 + c2)) (a3 + (b3 + c3))
    rw [add_assoc, add_assoc, add_assoc]
  zero_add := fun ⟨a1, a2, a3⟩ => by
    show point3d.mk (0 + a1) (0 + a2) (0 + a3) = point3d.mk a1 a2 a3
    rw [zero_add, zero_add, zero_add]
  add_zero := fun ⟨a1, a2, a3⟩ => by
    show point3d.mk (a1 + 0) (a2 + 0) (a3 + 0) = point3d.mk a1 a2 a3
    rw [add_zero, add_zero, add_zero]
  add_comm := fun ⟨a1, a2, a3⟩ ⟨b1, b2, b3⟩ => by
    show point3d.mk (a1 + b1) (a2 + b2) (a3 + b3) =
      point3d.mk (b1 + a1) (b2 + a2) (b3 + a3)
    rw [add_comm a1 b1, add_comm a2 b2, add_comm a3 b3]
  nsmul := nsmulRec

/-- The `v[i] += x` idiom of the accumulation loops. -/
def bump {α : Type _} [Zero α] [Add α] (l : List α) (v : Nat) (x : α) :
    List α :=
  l.set v (l.getD v 0 + x)

/-! ### Edge registry and boundary finder -/

/-- Modelled from the spec: order-independent edge equality (§4.1:
"Equality/hash for an edge must be order-independent"). -/
def edgeEq (e1 e2 : edge) : Bool :=
  (e1.first == e2.first && e1.second == e2.second) ||
  (e1.first == e2.second && e1.second == e2.first)

/-- Canonical key of an undirected edge, used on the specification side
to count distinct edges. -/
def edgeKey (e : edge) : Nat × Nat :=
  (min e.first e.second, max e.first e.second)

/-- Modelled from the spec: the edge registry (§4.1), a map from an
undirected edge to the index of the midpoint vertex created for it.
`add` is called by the code only on absent edges, so it is plain
insertion. -/
structure EdgeList where
  entries : List (edge × idxtype)
deriving DecidableEq

/-- Modelled from the spec: registry membership test, order-independent
in the edge's endpoints. -/
def EdgeList.contains (l : EdgeList) (e : edge) : Bool :=
  l.entries.any (fun p => edgeEq p.1 e)

/-- Modelled from the spec: insert an (edge, midpoint-index) entry. -/
def EdgeList.add (l : EdgeList) (e : edge) (i : idxtype) : EdgeList :=
  ⟨(e, i) :: l.entries⟩

/-- Modelled from the spec: look up the midpoint index registered for an
edge (defined only when present; absent edges give the junk value 0). -/
def EdgeList.getIndex (l : EdgeList) (e : edge) : idxtype :=
  ((l.entries.find? (fun p => edgeEq p.1 e)).map Prod.snd).getD 0

/-- Does face `f` reference vertex `v`? -/
def faceHasVertex (f : face) (v : idxtype) : Bool :=
  f.v1 == v || f.v2 == v || f.v3 == v

/-- Modelled from the spec (§4.2): the vertex of `f` opposite to edge
`e`, i.e. its third vertex, the one that is not an endpoint of `e`. -/
def oppositeVertex (f : face) (e : edge) : idxtype :=
  if f.v1 ≠ e.first ∧ f.v1 ≠ e.second then f.v1
  else if f.v2 ≠ e.first ∧ f.v2 ≠ e.second then f.v2
  else f.v3

/-- Modelled from the spec (§4.2): the faces of the mesh incident to
edge `e` (containing both endpoints). -/
def incidentFaces (e : edge) (mesh : List face) : List face :=
  mesh.filter (fun f => faceHasVertex f e.first && faceHasVertex f e.second)

/-- Modelled from the spec (§4.2): scan all faces; boundary when exactly
one incident face is found; otherwise report the two opposite vertices.
Behaviour on non-manifold input (incidence count outside {1,2}) is
unspecified in the spec; the model takes the first two opposite
vertices found, and never fails. Mirrors the C++ signature
`bool isBoundaryEdge(e, mesh, oppVert1&, oppVert2&)` with the out
parameters returned as the pair components. -/
def isBoundaryEdge (e : edge) (mesh : List face) :
    Bool × idxtype × idxtype :=
  match (incidentFaces e mesh).map (fun f => oppositeVertex f e) with
  | o1 :: o2 :: _ => (false, o1, o2)
  | _ => (true, 0, 0)

/-! ### Midpoint-vertex resolution (`getNewVertex`, loop.cpp:191-278) -/

/-- Function `getNewVertex` (loop.cpp:191): resolve the midpoint vertex of edge
`e`.  If the edge is not yet registered, register it, compute the new
vertex position (interior blend 3/8-1/8 or boundary average), append it
to the vertex list and return its index; otherwise return the index
already registered.  The returned triple is
(index, updated vertex list, updated registry). -/
def getNewVertex (e : edge) (vertList : List point3d) (mesh : List face)
    (newVertList : EdgeList) : idxtype × List point3d × EdgeList :=
  if newVertList.contains e = false then
    let newIndex : idxtype := vertList.length
    let newVertList' := newVertList.add e newIndex
    let r := isBoundaryEdge e mesh
    let nvert : point3d :=
      if r.1 = false then
        (3/8 : ℚ) • (vertList.getD e.first 0 + vertList.getD e.second 0) +
        (1/8 : ℚ) • (vertList.getD r.2.1 0 + vertList.getD r.2.2 0)
      else
        (1/2 : ℚ) • (vertList.getD e.first 0 + vertList.getD e.second 0)
    (newIndex, vertList ++ [nvert], newVertList')
  else
    (newVertList.getIndex e, vertList, newVertList)

/-! ### The subdivision driver (`loopSubdivision`, loop.cpp:21-177) -/

/-- One face's midpoint resolutions (loop.cpp:55-57): the three
`getNewVertex` calls on edges (v1,v2), (v2,v3), (v3,v1), threading the
vertex list and the registry. Returns ((a,b,c), vertices, registry). -/
def resolveFace (origMesh : List face) (vl : List point3d) (el : EdgeList)
    (f : face) : (idxtype × idxtype × idxtype) × List point3d × EdgeList :=
  let r1 := getNewVertex ⟨f.v1, f.v2⟩ vl origMesh el
  let r2 := getNewVertex ⟨f.v2, f.v3⟩ r1.2.1 origMesh r1.2.2
  let r3 := getNewVertex ⟨f.v3, f.v1⟩ r2.2.1 origMesh r2.2.2
  ((r1.1, r2.1, r3.1), r3.2.1, r3.2.2)

/-- The four child faces pushed for one original face (loop.cpp:75-78),
with `m = (a, b, c)` the resolved midpoints. -/
def childFaces (f : face) (m : idxtype × idxtype × idxtype) : List face :=
  [⟨f.v1, m.1, m.2.2⟩, ⟨m.1, m.2.1, m.2.2⟩, ⟨m.2.2, m.2.1, f.v3⟩,
   ⟨m.1, f.v2, m.2.1⟩]

/-- The body of the first per-face loop (loop.cpp:42-81): resolve the
three midpoints and append the four child faces. The state is
(destVert, destMesh, registry). -/
def processFace (origMesh : List face)
    (st : List point3d × List face × EdgeList) (f : face) :
    List point3d × List face × EdgeList :=
  let r := resolveFace origMesh st.1 st.2.2 f
  (r.2.1, st.2.1 ++ childFaces f r.1, r.2.2)

/-- The first phase of the pass (loop.cpp:27-81): `destVert` starts as a
copy of the input vertices, `destMesh` starts empty, the registry starts
empty, and every original face is processed in order. -/
def subdivideFaces (origVert : List point3d) (origMesh : List face) :
    List point3d × List face × EdgeList :=
  origMesh.foldl (processFace origMesh) (origVert, [], ⟨[]⟩)

/-- The body of the accumulation loop (loop.cpp:111-126): for each of
the three vertices of face `f`, increment its occurrence count and add
the positions of the other two vertices of `f` to its running sum. -/
def accumFace (origVert : List point3d) (ot : List Nat × List point3d)
    (f : face) : List Nat × List point3d :=
  let occ1 := bump ot.1 f.v1 1
  let tmp1 := bump ot.2 f.v1
    (origVert.getD f.v2 0 + origVert.getD f.v3 0)
  let occ2 := bump occ1 f.v2 1
  let tmp2 := bump tmp1 f.v2
    (origVert.getD f.v1 0 + origVert.getD f.v3 0)
  let occ3 := bump occ2 f.v3 1
  let tmp3 := bump tmp2 f.v3
    (origVert.getD f.v1 0 + origVert.getD f.v2 0)
  (occ3, tmp3)

/-- The accumulation loop of the repositioning step (loop.cpp:94-127):
per-vertex occurrence counts and per-vertex sums of the positions of the
other two vertices of each incident face, accumulated face by face,
both starting from all-zero lists of the input size. -/
def accumulate (origVert : List point3d) (origMesh : List face) :
    List Nat × List point3d :=
  origMesh.foldl (accumFace origVert)
    (List.replicate origVert.length 0, List.replicate origVert.length 0)

/-- The repositioning loop body (loop.cpp:133-136) without the
assertion: for each original index `i`,
`destVert[i] = 5/8 * origVert[i] + tmp[i] * (3 / (16 * occurrences[i]))`.
The vertex list `vl` is the phase-1 output (original copies followed by
the appended midpoints). -/
def repositionAll (origVert : List point3d) (origMesh : List face)
    (vl : List point3d) : List point3d :=
  let occ := (accumulate origVert origMesh).1
  let tmp := (accumulate origVert origMesh).2
  (List.range origVert.length).foldl
    (fun acc i =>
      acc.set i
        ((5/8 : ℚ) • origVert.getD i 0 +
         ((3 : ℚ) / (16 * (occ.getD i 0 : ℚ))) • tmp.getD i 0))
    vl

/-- The `assert(occurrences[i] != 0)` check of loop.cpp:134, hoisted to
a predicate over the whole loop: it holds iff no assertion fires. -/
def occurrencesOK (origVert : List point3d) (origMesh : List face) :
    Bool :=
  (List.range origVert.length).all
    (fun i => ((accumulate origVert origMesh).1.getD i 0) != 0)

/-- Function `loopSubdivision` (loop.cpp:21) restricted to its vertex/face
outputs, with the initial contents of the caller's output buffers made
explicit (they are in-out reference parameters in C++ and are
overwritten unconditionally: `destVert = origVert`,
`destMesh.clear()`).  `none` models an `assert` failure. -/
def loopSubdivisionBuf (destVert0 : List point3d) (destMesh0 : List face)
    (origVert : List point3d) (origMesh : List face) :
    Option (List point3d × List face) :=
  let _prevVert := destVert0
  let _prevMesh := destMesh0
  let destVert := origVert
  let destMesh : List face := []
  let s := origMesh.foldl (processFace origMesh) (destVert, destMesh, ⟨[]⟩)
  if occurrencesOK origVert origMesh then
    some (repositionAll origVert origMesh s.1, s.2.1)
  else
    none

/-- One pass of Loop subdivision: vertex and face outputs. -/
def loopSubdivision (origVert : List point3d) (origMesh : List face) :
    Option (List point3d × List face) :=
  loopSubdivisionBuf [] [] origVert origMesh

/-- The vertex-list/registry part of one `getNewVertex` call. -/
def procEdge (mesh : List face) (s : List point3d × EdgeList) (e : edge) :
    List point3d × EdgeList :=
  let r := getNewVertex e s.1 mesh s.2
  (r.2.1, r.2.2)

/-- The three edges of a face, in the order the code resolves them. -/
def edgesOfFace (f : face) : List edge :=
  [⟨f.v1, f.v2⟩, ⟨f.v2, f.v3⟩, ⟨f.v3, f.v1⟩]

/-- All edges of a mesh, flattened in processing order. -/
def edgeSeq : List face → List edge
  | [] => []
  | f :: t => edgesOfFace f ++ edgeSeq t

/-! ### Counting distinct edges (claim C1) -/

/-- The set of canonical keys of a list of edges. -/
def keysOf (L : List edge) : Finset (Nat × Nat) :=
  (L.map edgeKey).toFinset

/-- The number of distinct undirected edges occurring in the face list. -/
def distinctEdgeCount (F : List face) : Nat :=
  (keysOf (edgeSeq F)).card

/-- Invariant tying a phase-1 state to the set of edge keys seen so far:
the registry answers membership in the key set, has one entry per key,
and the vertex list has grown by exactly one vertex per key. -/
structure CountInv (n0 : Nat) (s : List point3d × EdgeList)
    (S : Finset (Nat × Nat)) : Prop where
  contains_iff : ∀ e, s.2.contains e = true ↔ edgeKey e ∈ S
  entry_count : s.2.entries.length = S.card
  vert_count : s.1.length = n0 + S.card

/-! ### Midpoint positions (claims C3, C4, C10) -/

/-- A face list is valid for a vertex list when every vertex index it
references is in range. -/
@[reducible] def validMesh (V : List point3d) (F : List face) : Prop :=
  ∀ f ∈ F, f.v1 < V.length ∧ f.v2 < V.length ∧ f.v3 < V.length

/-- The midpoint position of an edge, expressed over the ORIGINAL
vertex positions: the interior blend 3/8·(endpoints) + 1/8·(opposites)
when a second incident face exists, the plain average otherwise.  This
restates the two formulas of `getNewVertex` (loop.cpp:237 and 246) as a
function of the input mesh alone. -/
def midpointPos (V : List point3d) (F : List face) (e : edge) : point3d :=
  let r := isBoundaryEdge e F
  if r.1 = false then
    (3/8 : ℚ) • (V.getD e.first 0 + V.getD e.second 0) +
    (1/8 : ℚ) • (V.getD r.2.1 0 + V.getD r.2.2 0)
  else
    (1/2 : ℚ) • (V.getD e.first 0 + V.getD e.second 0)

/-- Invariant of phase 1: the original vertex positions are kept
unchanged at the front of the growing vertex list, and every registered
midpoint index holds exactly the position given by `midpointPos` over
the ORIGINAL vertices. -/
structure PosInv (V : List point3d) (F : List face)
    (s : List point3d × EdgeList) : Prop where
  orig_kept : ∀ i < V.length, s.1.getD i 0 = V.getD i 0
  len_ge : V.length ≤ s.1.length
  entries_pos : ∀ p ∈ s.2.entries,
    p.2 < s.1.length ∧ s.1.getD p.2 0 = midpointPos V F p.1

/-! ### The emitted face list (claim C2) -/

/-- Replay of the face loop recording, for every original face, the
triple of resolved midpoint indices (a, b, c) of its edges
(v1,v2), (v2,v3), (v3,v1), threading the vertex list and registry
exactly as the loop does. -/
def annotateFrom (origMesh : List face) :
    List point3d → EdgeList → List face →
    List (face × (idxtype × idxtype × idxtype))
  | _, _, [] => []
  | vl, el, f :: t =>
    let r := resolveFace origMesh vl el f
    (f, r.1) :: annotateFrom origMesh r.2.1 r.2.2 t

/-- The midpoint annotations of a whole pass. -/
def annotate (V : List point3d) (F : List face) :
    List (face × (idxtype × idxtype × idxtype)) :=
  annotateFrom F V ⟨[]⟩ F

/-- Flatten annotations into the four child faces per original face. -/
def childList : List (face × (idxtype × idxtype × idxtype)) → List face
  | [] => []
  | p :: t => childFaces p.1 p.2 ++ childList t

/-! ### Gather form of the accumulation loop (claims C5, C7) -/

/-- How many of the three vertex slots of face `f` equal `i`. -/
def occContrib (f : face) (i : idxtype) : Nat :=
  (if f.v1 = i then 1 else 0) + (if f.v2 = i then 1 else 0) +
  (if f.v3 = i then 1 else 0)

/-- Total slot count of vertex `i` over the face list. -/
def occCount (F : List face) (i : idxtype) : Nat :=
  (F.map (fun f => occContrib f i)).sum

/-- The contribution of face `f` to the neighbour sum of vertex `i`:
for each slot of `f` equal to `i`, the positions of the other two
vertices of `f`. -/
def posContrib (V : List point3d) (f : face) (i : idxtype) : point3d :=
  (if f.v1 = i then V.getD f.v2 0 + V.getD f.v3 0 else 0) +
  (if f.v2 = i then V.getD f.v1 0 + V.getD f.v3 0 else 0) +
  (if f.v3 = i then V.getD f.v1 0 + V.getD f.v2 0 else 0)

/-- The per-face accumulated sum, over all faces, of the positions of
the other two vertices of each face containing `i`. -/
def neighborSum (V : List point3d) (F : List face) (i : idxtype) :
    point3d :=
  (F.map (fun f => posContrib V f i)).sum

/-- A face with three pairwise distinct vertex indices. -/
@[reducible] def distinctFace (f : face) : Prop :=
  f.v1 ≠ f.v2 ∧ f.v1 ≠ f.v3 ∧ f.v2 ≠ f.v3

/-- A 3-component real vector (`vec3d` of `geometry.hpp`). -/
structure vec3R where
  x : ℝ
  y : ℝ
  z : ℝ

instance : Zero vec3R := ⟨⟨0, 0, 0⟩⟩

noncomputable instance : Add vec3R :=
  ⟨fun a b => ⟨a.x + b.x, a.y + b.y, a.z + b.z⟩⟩

noncomputable instance : Sub vec3R :=
  ⟨fun a b => ⟨a.x - b.x, a.y - b.y, a.z - b.z⟩⟩

noncomputable instance : SMul ℝ vec3R :=
  ⟨fun c v => ⟨c * v.x, c * v.y, c * v.z⟩⟩

noncomputable instance : AddCommMonoid vec3R where
  add_assoc := fun ⟨a1, a2, a3⟩ ⟨b1, b2, b3⟩ ⟨c1, c2, c3⟩ => by
    show vec3R.mk (a1 + b1 + c1) (a2 + b2 + c2) (a3 + b3 + c3) =
      vec3R.mk (a1 + (b1 + c1)) (a2 + (b2 + c2)) (a3 + (b3 + c3))
    rw [add_assoc, add_assoc, add_assoc]
  zero_add := fun ⟨a1, a2, a3⟩ => by
    show vec3R.mk (0 + a1) (0 + a2) (0 + a3) = vec3R.mk a1 a2 a3
    rw [zero_add, zero_add, zero_add]
  add_zero := fun ⟨a1, a2, a3⟩ => by
    show vec3R.mk (a1 + 0) (a2 + 0) (a3 + 0) = vec3R.mk a1 a2 a3
    rw [add_zero, add_zero, add_zero]
  add_comm := fun ⟨a1, a2, a3⟩ ⟨b1, b2, b3⟩ => by
    show vec3R.mk (a1 + b1) (a2 + b2) (a3 + b3) =
      vec3R.mk (b1 + a1) (b2 + a2) (b3 + a3)
    rw [add_comm a1 b1, add_comm a2 b2, add_comm a3 b3]
  nsmul := nsmulRec

/-- Cast a rational coordinate triple to a real vector. -/
noncomputable def toR (p : point3d) : vec3R :=
  ⟨(p.x : ℝ), (p.y : ℝ), (p.z : ℝ)⟩

/-- Euclidean inner product. -/
noncomputable def dot3 (a b : vec3R) : ℝ :=
  a.x * b.x + a.y * b.y + a.z * b.z

/-- Cross product. -/
noncomputable def cross3 (a b : vec3R) : vec3R :=
  ⟨a.y * b.z - a.z * b.y, a.z * b.x - a.x * b.z, a.x * b.y - a.y * b.x⟩

/-- Euclidean norm. -/
noncomputable def norm3 (v : vec3R) : ℝ :=
  Real.sqrt (dot3 v v)

/-- Modelled from the spec (§4.6 "normalize every vertex normal to unit
length"; `vec3d::normalize` of `geometry.hpp` is not in the snapshot):
scale a non-zero vector to unit length; the all-zero vector, whose
result the spec leaves unspecified, is left unchanged. -/
noncomputable def vnormalize (v : vec3R) : vec3R :=
  if norm3 v = 0 then v else (norm3 v)⁻¹ • v

/-- Modelled from the spec (§4.6: "compute its flat face normal (cross
product of two edge vectors, direction consistent with the face's
winding order)"; `computeNormal` of `geometry.hpp` is not in the
snapshot). -/
noncomputable def computeNormal (a b c : vec3R) : vec3R :=
  cross3 (b - a) (c - a)

/-- Modelled from the spec (§4.6: "compute, for each of the face's three
vertices, the interior angle of the triangle at that vertex";
`angleAtVertex` of `geometry.hpp` is not in the snapshot): the angle at
`p` between the directions towards `a` and `b`. -/
noncomputable def angleAtVertex (p a b : vec3R) : ℝ :=
  Real.arccos (dot3 (a - p) (b - p) / (norm3 (a - p) * norm3 (b - p)))

/-- The body of the normal-accumulation loop (loop.cpp:148-165): add the
angle-weighted face normal to each of the face's vertex normals. -/
noncomputable def normFace (verts : List vec3R) (dn : List vec3R)
    (f : face) : List vec3R :=
  let p1 := verts.getD f.v1 0
  let p2 := verts.getD f.v2 0
  let p3 := verts.getD f.v3 0
  let norm := computeNormal p1 p2 p3
  let dn1 := bump dn f.v1 (angleAtVertex p1 p2 p3 • norm)
  let dn2 := bump dn1 f.v2 (angleAtVertex p2 p3 p1 • norm)
  let dn3 := bump dn2 f.v3 (angleAtVertex p3 p1 p2 • norm)
  dn3

/-- The accumulated (pre-normalization) vertex normals: a zero vector
per vertex (loop.cpp:142-143), then one pass over the faces. -/
noncomputable def accumNormals (verts : List vec3R) (mesh : List face) :
    List vec3R :=
  mesh.foldl (normFace verts) (List.replicate verts.length 0)

/-- The full normal stage: accumulate, then normalize every entry
(loop.cpp:171-174). -/
noncomputable def normalStage (verts : List vec3R) (mesh : List face) :
    List vec3R :=
  (accumNormals verts mesh).map vnormalize

/-- The normals produced by the pass: the normal stage applied to the
repositioned vertices and the subdivided face list. -/
noncomputable def loopNormals (V : List point3d) (F : List face) :
    List vec3R :=
  normalStage ((repositionAll V F (subdivideFaces V F).1).map toR)
    ((subdivideFaces V F).2.1)

/-! ### Concrete meshes used to instantiate the theorems -/

/-- A single triangle: 3 vertices, 1 face, all edges boundary. -/
def triV : List point3d := [⟨0, 0, 0⟩, ⟨1, 0, 0⟩, ⟨0, 1, 0⟩]

def triF : List face := [⟨0, 1, 2⟩]

/-- The pass output vertices for the single triangle. -/
def triVout : List point3d :=
  [⟨3/16, 3/16, 0⟩, ⟨5/8, 3/16, 0⟩, ⟨3/16, 5/8, 0⟩,
   ⟨1/2, 0, 0⟩, ⟨1/2, 1/2, 0⟩, ⟨0, 1/2, 0⟩]

/-- The pass output faces for the single triangle. -/
def triFout : List face :=
  [⟨0, 3, 5⟩, ⟨3, 4, 5⟩, ⟨5, 4, 2⟩, ⟨3, 1, 4⟩]

/-- A tetrahedron: 4 vertices, 4 faces, every edge interior. -/
def tetV : List point3d :=
  [⟨0, 0, 0⟩, ⟨1, 0, 0⟩, ⟨0, 1, 0⟩, ⟨0, 0, 1⟩]

def tetF : List face :=
  [⟨0, 1, 2⟩, ⟨0, 3, 1⟩, ⟨0, 2, 3⟩, ⟨1, 3, 2⟩]

/-- A triangle chosen so the subdivided corner at vertex 0 is
right-angled, making its accumulated normal easy to evaluate. -/
def c6V : List point3d := [⟨0, 0, 0⟩, ⟨4, 1, 0⟩, ⟨4, -1, 0⟩]

def c6F : List face := [⟨0, 1, 2⟩]

/-- The normal stage with the caller's output-normal buffer made
explicit (in C++ it is an in-out reference that the code clears
unconditionally, loop.cpp:142). -/
noncomputable def loopNormalsBuf (destNorm0 : List vec3R)
    (V : List point3d) (F : List face) : List vec3R :=
  let _prevNorm := destNorm0
  normalStage ((repositionAll V F (subdivideFaces V F).1).map toR)
    ((subdivideFaces V F).2.1)

/-- The phase-1 vertex list of the single triangle: the three input
vertices followed by the three boundary-edge midpoints. -/
def triVmid : List point3d :=
  [⟨0, 0, 0⟩, ⟨1, 0, 0⟩, ⟨0, 1, 0⟩, ⟨1/2, 0, 0⟩, ⟨1/2, 1/2, 0⟩, ⟨0, 1/2, 0⟩]

/-- The phase-1 vertex list of the C6 triangle. -/
def c6Vmid : List point3d :=
  [⟨0, 0, 0⟩, ⟨4, 1, 0⟩, ⟨4, -1, 0⟩, ⟨2, 1/2, 0⟩, ⟨4, 0, 0⟩, ⟨2, -1/2, 0⟩]

/-- The repositioned vertices of the C6 triangle. -/
def c6Vout : List point3d :=
  [⟨3/2, 0, 0⟩, ⟨13/4, 7/16, 0⟩, ⟨13/4, -7/16, 0⟩,
   ⟨2, 1/2, 0⟩, ⟨4, 0, 0⟩, ⟨2, -1/2, 0⟩]

/-- The repositioned C6 vertices as real vectors. -/
noncomputable def c6VR : List vec3R :=
  [toR ⟨3/2, 0, 0⟩, toR ⟨13/4, 7/16, 0⟩, toR ⟨13/4, -7/16, 0⟩,
   toR ⟨2, 1/2, 0⟩, toR ⟨4, 0, 0⟩, toR ⟨2, -1/2, 0⟩]

@[ext] theorem point3d_ext {a b : point3d}
    (hx : a.x = b.x) (hy : a.y = b.y) (hz : a.z = b.z) : a = b := by
  cases a; cases b; simp_all

theorem point3d_zero_def : (0 : point3d) = ⟨0, 0, 0⟩ := rfl

theorem point3d_add_def (a b : point3d) :
    a + b = ⟨a.x + b.x, a.y + b.y, a.z + b.z⟩ := rfl

theorem point3d_smul_def (q : ℚ) (p : point3d) :
    q • p = ⟨q * p.x, q * p.y, q * p.z⟩ := rfl

/-! ### List access lemmas

`List.getD`/`List.set` model `std::vector` indexed reads and writes. -/

theorem getD_nil {α : Type _} (i : Nat) (d : α) : ([] : List α).getD i d = d := by
  cases i <;> rfl

theorem getD_of_le {α : Type _} (l : List α) {i : Nat} (d : α)
    (h : l.length ≤ i) : l.getD i d = d := by
  induction l generalizing i with
  | nil => exact getD_nil i d
  | cons a t ih =>
    cases i with
    | zero => simp at h
    | succ j =>
      simp only [List.length_cons] at h
      simpa [List.getD] using ih (by omega)

theorem getD_set_self {α : Type _} (l : List α) {i : Nat} (v d : α)
    (h : i < l.length) : (l.set i v).getD i d = v := by
  induction l generalizing i with
  | nil => simp at h
  | cons a t ih =>
    cases i with
    | zero => rfl
    | succ j =>
      simp only [List.length_cons] at h
      simpa [List.set, List.getD] using ih (by omega)

theorem getD_set_ne {α : Type _} (l : List α) {i j : Nat} (v d : α)
    (h : i ≠ j) : (l.set i v).getD j d = l.getD j d := by
  induction l generalizing i j with
  | nil => rfl
  | cons a t ih =>
    cases i with
    | zero =>
      cases j with
      | zero => exact absurd rfl h
      | succ k => rfl
    | succ i' =>
      cases j with
      | zero => rfl
      | succ k => simpa [List.set, List.getD] using ih (by omega)

theorem getD_append_lt {α : Type _} (l t : List α) {i : Nat} (d : α)
    (h : i < l.length) : (l ++ t).getD i d = l.getD i d := by
  induction l generalizing i with
  | nil => simp at h
  | cons a l' ih =>
    cases i with
    | zero => rfl
    | succ j =>
      simp only [List.length_cons] at h
      simpa [List.getD] using ih (by omega)

theorem getD_append_len {α : Type _} (l : List α) (v d : α) :
    (l ++ [v]).getD l.length d = v := by
  induction l with
  | nil => rfl
  | cons a l' ih => exact ih

theorem getD_replicate_lt {α : Type _} {n i : Nat} (a d : α) (h : i < n) :
    (List.replicate n a).getD i d = a := by
  induction n generalizing i with
  | zero => omega
  | succ m ih =>
    cases i with
    | zero => rfl
    | succ j => simpa [List.replicate, List.getD] using ih (by omega)

theorem getD_replicate_zero {α : Type _} [Zero α] (n i : Nat) :
    (List.replicate n (0 : α)).getD i 0 = 0 := by
  by_cases h : i < n
  · exact getD_replicate_lt 0 0 h
  · exact getD_of_le _ _ (by simpa using Nat.le_of_not_lt h)

theorem getD_map_lt {α β : Type _} (f : α → β) (l : List α) {i : Nat}
    (d : β) (d' : α) (h : i < l.length) :
    (l.map f).getD i d = f (l.getD i d') := by
  induction l generalizing i with
  | nil => simp at h
  | cons a t ih =>
    cases i with
    | zero => rfl
    | succ j =>
      simp only [List.length_cons] at h
      simpa [List.getD] using ih (by omega)

theorem bump_length {α : Type _} [Zero α] [Add α] (l : List α) (v : Nat)
    (x : α) : (bump l v x).length = l.length := by
  simp [bump]

theorem bump_getD {α : Type _} [AddZeroClass α] (l : List α) (v : Nat)
    (x : α) {i : Nat} (h : i < l.length) :
    (bump l v x).getD i 0 = l.getD i 0 + (if v = i then x else 0) := by
  by_cases hv : v = i
  · subst hv
    show (l.set v (l.getD v 0 + x)).getD v 0 = _
    rw [getD_set_self l _ _ h, if_pos rfl]
  · show (l.set v (l.getD v 0 + x)).getD i 0 = _
    rw [getD_set_ne l _ _ hv, if_neg hv, add_zero]

theorem minmax_eq_iff (a b c d : ℕ) :
    (min a b = min c d ∧ max a b = max c d) ↔
    (a = c ∧ b = d) ∨ (a = d ∧ b = c) := by
  rw [Nat.min_def, Nat.min_def, Nat.max_def, Nat.max_def]
  split_ifs <;> omega

theorem edgeEq_iff_key (e1 e2 : edge) :
    edgeEq e1 e2 = true ↔ edgeKey e1 = edgeKey e2 := by
  simp only [edgeEq, edgeKey, Bool.or_eq_true, Bool.and_eq_true,
    beq_iff_eq, Prod.mk.injEq]
  rw [minmax_eq_iff]

/-! ### The edge-sequence view of phase 1

For reasoning about the vertex list and the registry, the per-face
processing can be flattened into processing the 3·(number of faces)
edges in order; the face output is handled separately. -/

theorem getNewVertex_of_contains {e : edge} {el : EdgeList}
    (vl : List point3d) (mesh : List face)
    (h : el.contains e = true) :
    getNewVertex e vl mesh el = (el.getIndex e, vl, el) := by
  simp [getNewVertex, h]

theorem processFace_state (mesh : List face)
    (st : List point3d × List face × EdgeList) (f : face) :
    ((processFace mesh st f).1, (processFace mesh st f).2.2) =
    List.foldl (procEdge mesh) (st.1, st.2.2) (edgesOfFace f) := rfl

theorem processFace_mesh (mesh : List face)
    (st : List point3d × List face × EdgeList) (f : face) :
    (processFace mesh st f).2.1 =
    st.2.1 ++ childFaces f (resolveFace mesh st.1 st.2.2 f).1 := rfl

theorem foldl_processFace_state (mesh : List face) :
    ∀ (L : List face) (st : List point3d × List face × EdgeList),
    ((L.foldl (processFace mesh) st).1,
     (L.foldl (processFace mesh) st).2.2) =
    List.foldl (procEdge mesh) (st.1, st.2.2) (edgeSeq L) := by
  intro L
  induction L with
  | nil => intro st; rfl
  | cons f t ih =>
    intro st
    simp only [List.foldl_cons]
    rw [ih (processFace mesh st f), edgeSeq, List.foldl_append,
      ← processFace_state]

theorem subdivideFaces_state (V : List point3d) (F : List face) :
    ((subdivideFaces V F).1, (subdivideFaces V F).2.2) =
    List.foldl (procEdge F) (V, ⟨[]⟩) (edgeSeq F) :=
  foldl_processFace_state F F (V, [], ⟨[]⟩)

theorem countInv_init (V : List point3d) :
    CountInv V.length (V, ⟨[]⟩) ∅ := by
  refine ⟨fun e => ?_, rfl, by simp⟩
  simp [EdgeList.contains]

theorem countInv_step (mesh : List face) {n0 : Nat}
    {s : List point3d × EdgeList} {S : Finset (Nat × Nat)}
    (h : CountInv n0 s S) (e : edge) :
    CountInv n0 (procEdge mesh s e) (insert (edgeKey e) S) := by
  by_cases hc : s.2.contains e = true
  · have hk : edgeKey e ∈ S := (h.contains_iff e).mp hc
    have hins : insert (edgeKey e) S = S := Finset.insert_eq_self.mpr hk
    rw [hins]
    have : procEdge mesh s e = s := by
      simp [procEdge, getNewVertex_of_contains _ _ hc]
    rw [this]
    exact h
  · have hk : edgeKey e ∉ S := fun hmem =>
      hc ((h.contains_iff e).mpr hmem)
    have hB : s.2.contains e = false := by
      simpa using hc
    have hreg : (procEdge mesh s e).2 =
        (⟨(e, s.1.length) :: s.2.entries⟩ : EdgeList) := by
      simp [procEdge, getNewVertex, hB, EdgeList.add]
    have hvl : (procEdge mesh s e).1.length = s.1.length + 1 := by
      simp [procEdge, getNewVertex, hB]
    refine ⟨fun e' => ?_, ?_, ?_⟩
    · rw [hreg]
      show (List.any _ _ = true) ↔ _
      simp only [List.any_cons, Bool.or_eq_true, Finset.mem_insert]
      constructor
      · rintro (h1 | h2)
        · exact Or.inl ((edgeEq_iff_key e e').mp h1).symm
        · exact Or.inr ((h.contains_iff e').mp h2)
      · rintro (h1 | h2)
        · exact Or.inl ((edgeEq_iff_key e e').mpr h1.symm)
        · exact Or.inr ((h.contains_iff e').mpr h2)
    · rw [hreg]
      show s.2.entries.length + 1 = _
      rw [h.entry_count, Finset.card_insert_of_not_mem hk]
    · rw [hvl, h.vert_count, Finset.card_insert_of_not_mem hk]
      omega

theorem countInv_fold (mesh : List face) :
    ∀ (es : List edge) {n0 : Nat} {s : List point3d × EdgeList}
    {S : Finset (Nat × Nat)}, CountInv n0 s S →
    CountInv n0 (List.foldl (procEdge mesh) s es) (S ∪ keysOf es) := by
  intro es
  induction es with
  | nil =>
    intro n0 s S h
    simpa [keysOf] using h
  | cons e t ih =>
    intro n0 s S h
    have h1 := ih (countInv_step mesh h e)
    have hset : insert (edgeKey e) S ∪ keysOf t = S ∪ keysOf (e :: t) := by
      simp [keysOf, Finset.insert_union, Finset.union_insert]
    rw [hset] at h1
    exact h1

theorem countInv_final (V : List point3d) (F : List face) :
    CountInv V.length
      ((subdivideFaces V F).1, (subdivideFaces V F).2.2)
      (keysOf (edgeSeq F)) := by
  have h := countInv_fold F (edgeSeq F) (countInv_init V)
  rw [subdivideFaces_state]
  simpa using h

theorem oppositeVertex_cases (f : face) (e : edge) :
    oppositeVertex f e = f.v1 ∨ oppositeVertex f e = f.v2 ∨
    oppositeVertex f e = f.v3 := by
  unfold oppositeVertex
  split_ifs <;> simp

theorem incidentFaces_sub {e : edge} {F : List face} {f : face}
    (h : f ∈ incidentFaces e F) : f ∈ F :=
  List.mem_of_mem_filter h

theorem opposite_lt {V : List point3d} {F : List face} {e : edge}
    (hvalid : validMesh V F)
    (hr : (isBoundaryEdge e F).1 = false) :
    (isBoundaryEdge e F).2.1 < V.length ∧
    (isBoundaryEdge e F).2.2 < V.length := by
  have hopp : ∀ f ∈ incidentFaces e F, oppositeVertex f e < V.length := by
    intro f hf
    obtain ⟨h1, h2, h3⟩ := hvalid f (incidentFaces_sub hf)
    rcases oppositeVertex_cases f e with h | h | h <;> rw [h] <;> assumption
  rcases hL : incidentFaces e F with _ | ⟨f1, _ | ⟨f2, t⟩⟩
  · rw [isBoundaryEdge, hL] at hr
    simp at hr
  · rw [isBoundaryEdge, hL] at hr
    simp at hr
  · have h1 : f1 ∈ incidentFaces e F := by rw [hL]; exact List.mem_cons_self _ _
    have h2 : f2 ∈ incidentFaces e F := by
      rw [hL]; exact List.mem_cons_of_mem _ (List.mem_cons_self _ _)
    rw [isBoundaryEdge, hL]
    simp only [List.map_cons]
    exact ⟨hopp f1 h1, hopp f2 h2⟩

theorem edgeSeq_endpoints {V : List point3d} {F : List face}
    (hvalid : validMesh V F) :
    ∀ e ∈ edgeSeq F, e.first < V.length ∧ e.second < V.length := by
  induction F with
  | nil => intro e he; simp [edgeSeq] at he
  | cons f t ih =>
    intro e he
    rw [edgeSeq, List.mem_append] at he
    rcases he with he | he
    · obtain ⟨h1, h2, h3⟩ := hvalid f (List.mem_cons_self _ _)
      rw [edgesOfFace] at he
      simp only [List.mem_cons, List.not_mem_nil, or_false] at he
      rcases he with rfl | rfl | rfl
      · exact ⟨h1, h2⟩
      · exact ⟨h2, h3⟩
      · exact ⟨h3, h1⟩
    · exact ih (fun g hg => hvalid g (List.mem_cons_of_mem _ hg)) e he

theorem posInv_init (V : List point3d) (F : List face) :
    PosInv V F (V, ⟨[]⟩) := by
  refine ⟨fun i _ => rfl, le_refl _, fun p hp => ?_⟩
  simp at hp

theorem posInv_step {V : List point3d} {F : List face}
    {s : List point3d × EdgeList} (hvalid : validMesh V F)
    (h : PosInv V F s) {e : edge}
    (he1 : e.first < V.length) (he2 : e.second < V.length) :
    PosInv V F (procEdge F s e) := by
  by_cases hc : s.2.contains e = true
  · have : procEdge F s e = s := by
      simp [procEdge, getNewVertex_of_contains _ _ hc]
    rw [this]
    exact h
  · have hB : s.2.contains e = false := by simpa using hc
    set r := isBoundaryEdge e F with hr
    set nvert : point3d :=
      if r.1 = false then
        (3/8 : ℚ) • (s.1.getD e.first 0 + s.1.getD e.second 0) +
        (1/8 : ℚ) • (s.1.getD r.2.1 0 + s.1.getD r.2.2 0)
      else
        (1/2 : ℚ) • (s.1.getD e.first 0 + s.1.getD e.second 0)
      with hnv
    have hproc : procEdge F s e =
        (s.1 ++ [nvert], (⟨(e, s.1.length) :: s.2.entries⟩ : EdgeList)) := by
      rw [procEdge, getNewVertex, hB]
      simp only [if_pos rfl]
      rfl
    have hmid : nvert = midpointPos V F e := by
      rw [hnv, midpointPos]
      by_cases hb : r.1 = false
      · obtain ⟨ho1, ho2⟩ := opposite_lt hvalid (by rw [← hr]; exact hb)
        rw [if_pos hb, ← hr, if_pos hb,
          h.orig_kept e.first he1, h.orig_kept e.second he2,
          h.orig_kept r.2.1 ho1, h.orig_kept r.2.2 ho2]
      · rw [if_neg hb, ← hr, if_neg hb,
          h.orig_kept e.first he1, h.orig_kept e.second he2]
    rw [hproc]
    refine ⟨fun i hi => ?_, ?_, fun p hp => ?_⟩
    · rw [getD_append_lt _ _ _ (lt_of_lt_of_le hi h.len_ge)]
      exact h.orig_kept i hi
    · have := h.len_ge
      simp only [List.length_append, List.length_singleton]
      omega
    · rcases List.mem_cons.mp hp with hp | hp
      · subst hp
        constructor
        · show s.1.length < (s.1 ++ [nvert]).length
          simp
        · show (s.1 ++ [nvert]).getD s.1.length 0 = midpointPos V F e
          rw [getD_append_len, hmid]
      · obtain ⟨hlt, hval⟩ := h.entries_pos p hp
        constructor
        · show p.2 < (s.1 ++ [nvert]).length
          simp only [List.length_append, List.length_singleton]
          exact Nat.lt_succ_of_lt hlt
        · show (s.1 ++ [nvert]).getD p.2 0 = midpointPos V F p.1
          rw [getD_append_lt _ _ _ hlt]
          exact hval

theorem posInv_fold {V : List point3d} {F : List face}
    (hvalid : validMesh V F) :
    ∀ (es : List edge)
    (_ : ∀ e ∈ es, e.first < V.length ∧ e.second < V.length)
    {s : List point3d × EdgeList} (_ : PosInv V F s),
    PosInv V F (List.foldl (procEdge F) s es) := by
  intro es
  induction es with
  | nil => intro _ s h; exact h
  | cons e t ih =>
    intro hes s h
    have he := hes e (List.mem_cons_self _ _)
    exact ih (fun g hg => hes g (List.mem_cons_of_mem _ hg))
      (posInv_step hvalid h he.1 he.2)

theorem posInv_final {V : List point3d} {F : List face}
    (hvalid : validMesh V F) :
    PosInv V F ((subdivideFaces V F).1, (subdivideFaces V F).2.2) := by
  rw [subdivideFaces_state]
  exact posInv_fold hvalid (edgeSeq F) (edgeSeq_endpoints hvalid)
    (posInv_init V F)

theorem childList_length (l : List (face × (idxtype × idxtype × idxtype))) :
    (childList l).length = 4 * l.length := by
  induction l with
  | nil => rfl
  | cons p t ih =>
    show (childFaces p.1 p.2 ++ childList t).length = _
    rw [List.length_append, ih]
    show 4 + 4 * t.length = 4 * (t.length + 1)
    omega

theorem annotateFrom_length (origMesh : List face) :
    ∀ (L : List face) (vl : List point3d) (el : EdgeList),
    (annotateFrom origMesh vl el L).length = L.length := by
  intro L
  induction L with
  | nil => intro vl el; rfl
  | cons f t ih =>
    intro vl el
    show _ + 1 = _
    rw [ih]
    rfl

theorem foldl_processFace_mesh (origMesh : List face) :
    ∀ (L : List face) (vl : List point3d) (ml : List face) (el : EdgeList),
    (L.foldl (processFace origMesh) (vl, ml, el)).2.1 =
    ml ++ childList (annotateFrom origMesh vl el L) := by
  intro L
  induction L with
  | nil => intro vl ml el; simp [childList]
  | cons f t ih =>
    intro vl ml el
    rw [List.foldl_cons]
    have hstep : processFace origMesh (vl, ml, el) f =
        ((resolveFace origMesh vl el f).2.1,
         ml ++ childFaces f (resolveFace origMesh vl el f).1,
         (resolveFace origMesh vl el f).2.2) := rfl
    rw [hstep, ih, annotateFrom]
    show _ = ml ++ (childFaces f (resolveFace origMesh vl el f).1 ++ _)
    rw [List.append_assoc]

theorem subdivideFaces_mesh (V : List point3d) (F : List face) :
    (subdivideFaces V F).2.1 = childList (annotate V F) :=
  foldl_processFace_mesh F F V [] ⟨[]⟩

theorem accumFace_lengths (V : List point3d)
    (ot : List Nat × List point3d) (f : face) :
    (accumFace V ot f).1.length = ot.1.length ∧
    (accumFace V ot f).2.length = ot.2.length := by
  constructor <;> simp [accumFace, bump_length]

theorem accumFace_getD (V : List point3d) (ot : List Nat × List point3d)
    (f : face) {i : idxtype} (h1 : i < ot.1.length) (h2 : i < ot.2.length) :
    (accumFace V ot f).1.getD i 0 = ot.1.getD i 0 + occContrib f i ∧
    (accumFace V ot f).2.getD i 0 = ot.2.getD i 0 + posContrib V f i := by
  constructor
  · show (bump (bump (bump ot.1 f.v1 1) f.v2 1) f.v3 1).getD i 0 = _
    rw [bump_getD _ _ _ (by rw [bump_length, bump_length]; exact h1),
      bump_getD _ _ _ (by rw [bump_length]; exact h1),
      bump_getD _ _ _ h1, occContrib]
    abel
  · show (bump (bump (bump ot.2 f.v1 _) f.v2 _) f.v3 _).getD i 0 = _
    rw [bump_getD _ _ _ (by rw [bump_length, bump_length]; exact h2),
      bump_getD _ _ _ (by rw [bump_length]; exact h2),
      bump_getD _ _ _ h2, posContrib]
    abel

theorem foldl_accumFace_getD (V : List point3d) :
    ∀ (L : List face) (ot : List Nat × List point3d) {i : idxtype}
    (_ : i < ot.1.length) (_ : i < ot.2.length),
    (L.foldl (accumFace V) ot).1.getD i 0 = ot.1.getD i 0 + occCount L i ∧
    (L.foldl (accumFace V) ot).2.getD i 0 =
      ot.2.getD i 0 + neighborSum V L i := by
  intro L
  induction L with
  | nil =>
    intro ot i h1 h2
    constructor
    · show ot.1.getD i 0 = ot.1.getD i 0 + ([] : List Nat).sum
      simp
    · show ot.2.getD i 0 = ot.2.getD i 0 + ([] : List point3d).sum
      simp
  | cons f t ih =>
    intro ot i h1 h2
    rw [List.foldl_cons]
    have hl := accumFace_lengths V ot f
    have hstep := accumFace_getD V ot f h1 h2
    have hrec := ih (accumFace V ot f)
      (by rw [hl.1]; exact h1) (by rw [hl.2]; exact h2)
    constructor
    · rw [hrec.1, hstep.1]
      show _ = ot.1.getD i 0 + (List.map _ (f :: t)).sum
      rw [List.map_cons, List.sum_cons]
      show _ = _ + (occContrib f i + occCount t i)
      omega
    · rw [hrec.2, hstep.2]
      show _ = ot.2.getD i 0 + (List.map _ (f :: t)).sum
      rw [List.map_cons, List.sum_cons]
      show _ = _ + (posContrib V f i + neighborSum V t i)
      abel

theorem accumulate_getD (V : List point3d) (F : List face) {i : idxtype}
    (h : i < V.length) :
    (accumulate V F).1.getD i 0 = occCount F i ∧
    (accumulate V F).2.getD i 0 = neighborSum V F i := by
  have h0 := foldl_accumFace_getD V F
    (List.replicate V.length (0 : Nat), List.replicate V.length (0 : point3d))
    (by simpa using h) (by simpa using h)
  rw [accumulate]
  constructor
  · rw [h0.1]
    show (List.replicate V.length (0 : Nat)).getD i 0 + _ = _
    rw [getD_replicate_zero]
    omega
  · rw [h0.2]
    show (List.replicate V.length (0 : point3d)).getD i 0 + _ = _
    rw [getD_replicate_zero, zero_add]

theorem accumulate_lengths (V : List point3d) (F : List face) :
    (accumulate V F).1.length = V.length ∧
    (accumulate V F).2.length = V.length := by
  rw [accumulate]
  generalize hP : (List.replicate V.length (0 : Nat),
    List.replicate V.length (0 : point3d)) = P
  have h1 : P.1.length = V.length ∧ P.2.length = V.length := by
    rw [← hP]; simp
  clear hP
  induction F generalizing P with
  | nil => exact h1
  | cons f t ih =>
    rw [List.foldl_cons]
    have hl := accumFace_lengths V P f
    exact ih _ ⟨by rw [hl.1, h1.1], by rw [hl.2, h1.2]⟩

/-! ### Pointwise form of the repositioning loop (claims C5, C9) -/

theorem set_of_length_le {α : Type _} :
    ∀ (l : List α) {i : Nat} (v : α), l.length ≤ i → l.set i v = l := by
  intro l
  induction l with
  | nil => intro i v _; rfl
  | cons a t ih =>
    intro i v h
    cases i with
    | zero => simp at h
    | succ j =>
      show a :: t.set j v = a :: t
      rw [ih v (by simpa using h)]

theorem foldl_range_set_length {α : Type _} (g : Nat → α) :
    ∀ (n : Nat) (l : List α),
    ((List.range n).foldl (fun acc i => acc.set i (g i)) l).length =
    l.length := by
  intro n
  induction n with
  | zero => intro l; rfl
  | succ m ih =>
    intro l
    rw [List.range_succ, List.foldl_append, List.foldl_cons, List.foldl_nil,
      List.length_set, ih]

theorem foldl_range_set_getD {α : Type _} (g : Nat → α) (d : α) :
    ∀ (n : Nat) (l : List α) (j : Nat),
    ((List.range n).foldl (fun acc i => acc.set i (g i)) l).getD j d =
    if j < n ∧ j < l.length then g j else l.getD j d := by
  intro n
  induction n with
  | zero =>
    intro l j
    rw [if_neg (by omega)]
    rfl
  | succ m ih =>
    intro l j
    rw [List.range_succ, List.foldl_append, List.foldl_cons, List.foldl_nil]
    by_cases hj : j = m
    · subst hj
      by_cases hl : j < l.length
      · rw [getD_set_self _ _ _ (by rw [foldl_range_set_length]; exact hl),
          if_pos ⟨by omega, hl⟩]
      · rw [set_of_length_le _ _ (by rw [foldl_range_set_length]; omega),
          ih, if_neg (by omega), if_neg (by omega)]
    · rw [getD_set_ne _ _ _ (fun h => hj h.symm), ih]
      by_cases hcond : j < m ∧ j < l.length
      · rw [if_pos hcond, if_pos ⟨by omega, hcond.2⟩]
      · rw [if_neg hcond, if_neg (by omega)]

theorem repositionAll_getD (V : List point3d) (F : List face)
    (vl : List point3d) (j : Nat) :
    (repositionAll V F vl).getD j 0 =
    if j < V.length ∧ j < vl.length then
      (5/8 : ℚ) • V.getD j 0 +
      ((3 : ℚ) / (16 * ((accumulate V F).1.getD j 0 : ℚ))) •
        (accumulate V F).2.getD j 0
    else vl.getD j 0 :=
  foldl_range_set_getD _ 0 V.length vl j

theorem repositionAll_length (V : List point3d) (F : List face)
    (vl : List point3d) :
    (repositionAll V F vl).length = vl.length :=
  foldl_range_set_length _ V.length vl

/-! ### Occurrence counts and the assertion (claim C7) -/

theorem occContrib_ne_zero (f : face) (i : idxtype) :
    occContrib f i ≠ 0 ↔ faceHasVertex f i = true := by
  by_cases ha : f.v1 = i <;> by_cases hb : f.v2 = i <;>
    by_cases hc : f.v3 = i <;>
    simp_all [occContrib, faceHasVertex]

theorem occCount_ne_zero (F : List face) (i : idxtype) :
    occCount F i ≠ 0 ↔ ∃ f ∈ F, faceHasVertex f i = true := by
  induction F with
  | nil => simp [occCount]
  | cons f t ih =>
    rw [occCount, List.map_cons, List.sum_cons]
    constructor
    · intro h
      by_cases hf : occContrib f i = 0
      · rw [hf, Nat.zero_add] at h
        obtain ⟨g, hg, hgi⟩ := ih.mp h
        exact ⟨g, List.mem_cons_of_mem _ hg, hgi⟩
      · exact ⟨f, List.mem_cons_self _ _, (occContrib_ne_zero f i).mp hf⟩
    · rintro ⟨g, hg, hgi⟩
      rcases List.mem_cons.mp hg with rfl | hg
      · have := (occContrib_ne_zero g i).mpr hgi
        omega
      · have := ih.mpr ⟨g, hg, hgi⟩
        rw [occCount] at this
        omega

theorem occContrib_distinct {f : face} (hd : distinctFace f)
    (i : idxtype) :
    occContrib f i = if faceHasVertex f i = true then 1 else 0 := by
  obtain ⟨h1, h2, h3⟩ := hd
  by_cases ha : f.v1 = i <;> by_cases hb : f.v2 = i <;>
    by_cases hc : f.v3 = i <;>
    simp_all [occContrib, faceHasVertex]

theorem occCount_distinct {F : List face}
    (hd : ∀ f ∈ F, distinctFace f) (i : idxtype) :
    occCount F i = (F.filter (fun f => faceHasVertex f i)).length := by
  induction F with
  | nil => rfl
  | cons f t ih =>
    rw [occCount, List.map_cons, List.sum_cons]
    have hf := occContrib_distinct (hd f (List.mem_cons_self _ _)) i
    have ht := ih (fun g hg => hd g (List.mem_cons_of_mem _ hg))
    rw [List.filter_cons]
    by_cases hc : faceHasVertex f i = true
    · rw [hf, if_pos hc, if_pos hc, List.length_cons]
      rw [occCount] at ht
      omega
    · have hc' : faceHasVertex f i = false := by simpa using hc
      rw [hf, if_neg hc, hc']
      rw [occCount] at ht
      simpa using ht

theorem occurrencesOK_iff (V : List point3d) (F : List face) :
    occurrencesOK V F = true ↔
    ∀ i < V.length, ∃ f ∈ F, faceHasVertex f i = true := by
  rw [occurrencesOK, List.all_eq_true]
  constructor
  · intro h i hi
    have := h i (List.mem_range.mpr hi)
    rw [bne_iff_ne, (accumulate_getD V F hi).1] at this
    exact (occCount_ne_zero F i).mp this
  · intro h i hi
    have hi' := List.mem_range.mp hi
    rw [bne_iff_ne, (accumulate_getD V F hi').1]
    exact (occCount_ne_zero F i).mpr (h i hi')

theorem loopSubdivision_eq (V : List point3d) (F : List face) :
    loopSubdivision V F =
    if occurrencesOK V F then
      some (repositionAll V F (subdivideFaces V F).1,
        (subdivideFaces V F).2.1)
    else none := rfl

theorem loopSubdivision_isSome (V : List point3d) (F : List face) :
    (loopSubdivision V F).isSome = true ↔ occurrencesOK V F = true := by
  rw [loopSubdivision_eq]
  by_cases h : occurrencesOK V F = true
  · simp [h]
  · simp [h]

/-! ### Normal recomputation (claim C6)

The normal stage (loop.cpp:140-174) uses square roots and arc-cosines,
so it is modelled over the real numbers; the rational vertex positions
enter through the cast `toR`. -/

@[ext] theorem vec3R_ext {a b : vec3R}
    (hx : a.x = b.x) (hy : a.y = b.y) (hz : a.z = b.z) : a = b := by
  cases a; cases b; simp_all

theorem vec3R_zero_def : (0 : vec3R) = ⟨0, 0, 0⟩ := rfl

theorem vec3R_add_def (a b : vec3R) :
    a + b = ⟨a.x + b.x, a.y + b.y, a.z + b.z⟩ := rfl

theorem vec3R_sub_def (a b : vec3R) :
    a - b = ⟨a.x - b.x, a.y - b.y, a.z - b.z⟩ := rfl

theorem vec3R_smul_def (c : ℝ) (v : vec3R) :
    c • v = ⟨c * v.x, c * v.y, c * v.z⟩ := rfl

theorem normFace_length (verts : List vec3R) (dn : List vec3R) (f : face) :
    (normFace verts dn f).length = dn.length := by
  simp [normFace, bump_length]

theorem accumNormals_length (verts : List vec3R) (mesh : List face) :
    (accumNormals verts mesh).length = verts.length := by
  rw [accumNormals]
  generalize hP : List.replicate verts.length (0 : vec3R) = P
  have h1 : P.length = verts.length := by rw [← hP]; simp
  clear hP
  induction mesh generalizing P with
  | nil => exact h1
  | cons f t ih =>
    rw [List.foldl_cons]
    exact ih _ (by rw [normFace_length, h1])

theorem dot3_self_nonneg (v : vec3R) : 0 ≤ dot3 v v := by
  rw [dot3]
  nlinarith [sq_nonneg v.x, sq_nonneg v.y, sq_nonneg v.z]

theorem norm3_eq_zero_iff (v : vec3R) : norm3 v = 0 ↔ v = 0 := by
  rw [norm3, Real.sqrt_eq_zero (dot3_self_nonneg v)]
  constructor
  · intro h
    rw [dot3] at h
    have hx : v.x = 0 := by nlinarith [sq_nonneg v.x, sq_nonneg v.y, sq_nonneg v.z]
    have hy : v.y = 0 := by nlinarith [sq_nonneg v.x, sq_nonneg v.y, sq_nonneg v.z]
    have hz : v.z = 0 := by nlinarith [sq_nonneg v.x, sq_nonneg v.y, sq_nonneg v.z]
    ext <;> simp [vec3R_zero_def, hx, hy, hz]
  · intro h
    rw [h, dot3]
    simp [vec3R_zero_def]

theorem norm3_smul (c : ℝ) (v : vec3R) :
    norm3 (c • v) = |c| * norm3 v := by
  have hdot : dot3 (c • v) (c • v) = c ^ 2 * dot3 v v := by
    rw [vec3R_smul_def, dot3, dot3]
    ring
  rw [norm3, hdot, Real.sqrt_mul (sq_nonneg c), Real.sqrt_sq_eq_abs, norm3]

theorem norm3_vnormalize {v : vec3R} (h : v ≠ 0) :
    norm3 (vnormalize v) = 1 := by
  have hn : norm3 v ≠ 0 := fun h0 => h ((norm3_eq_zero_iff v).mp h0)
  have hpos : 0 < norm3 v :=
    lt_of_le_of_ne (Real.sqrt_nonneg _) (Ne.symm hn)
  rw [vnormalize, if_neg hn, norm3_smul, abs_of_pos (inv_pos.mpr hpos),
    inv_mul_cancel₀ hn]

/-! ### Orientation invariance and registry lookup (claims C1, C3, C4) -/

theorem edgeEq_swap (e : edge) (a b : idxtype) :
    edgeEq e ⟨a, b⟩ = edgeEq e ⟨b, a⟩ := by
  rw [edgeEq, edgeEq]
  exact Bool.or_comm _ _

theorem contains_swap (el : EdgeList) (a b : idxtype) :
    el.contains ⟨a, b⟩ = el.contains ⟨b, a⟩ := by
  rw [EdgeList.contains, EdgeList.contains]
  have h : (fun p : edge × idxtype => edgeEq p.1 ⟨a, b⟩) =
      (fun p : edge × idxtype => edgeEq p.1 ⟨b, a⟩) :=
    funext fun p => edgeEq_swap p.1 a b
  rw [h]

theorem incidentFaces_swap (F : List face) (a b : idxtype) :
    incidentFaces ⟨a, b⟩ F = incidentFaces ⟨b, a⟩ F := by
  rw [incidentFaces, incidentFaces]
  have h : (fun f => faceHasVertex f ((⟨a, b⟩ : edge).first) &&
      faceHasVertex f ((⟨a, b⟩ : edge).second)) =
      (fun f => faceHasVertex f ((⟨b, a⟩ : edge).first) &&
      faceHasVertex f ((⟨b, a⟩ : edge).second)) :=
    funext fun f => Bool.and_comm _ _
  rw [h]

theorem oppositeVertex_swap (f : face) (a b : idxtype) :
    oppositeVertex f ⟨a, b⟩ = oppositeVertex f ⟨b, a⟩ := by
  rw [oppositeVertex, oppositeVertex]
  exact if_congr and_comm rfl (if_congr and_comm rfl rfl)

theorem isBoundaryEdge_swap (F : List face) (a b : idxtype) :
    isBoundaryEdge ⟨a, b⟩ F = isBoundaryEdge ⟨b, a⟩ F := by
  rw [isBoundaryEdge, isBoundaryEdge, incidentFaces_swap F a b]
  have h : (fun f => oppositeVertex f ⟨a, b⟩) =
      (fun f => oppositeVertex f ⟨b, a⟩) :=
    funext fun f => oppositeVertex_swap f a b
  rw [h]

theorem midpointPos_swap (V : List point3d) (F : List face)
    (a b : idxtype) :
    midpointPos V F ⟨a, b⟩ = midpointPos V F ⟨b, a⟩ := by
  rw [midpointPos, midpointPos, isBoundaryEdge_swap F a b,
    add_comm (V.getD a 0) (V.getD b 0)]

theorem midpointPos_edgeEq {V : List point3d} {F : List face}
    {e1 e2 : edge} (h : edgeEq e1 e2 = true) :
    midpointPos V F e1 = midpointPos V F e2 := by
  rw [edgeEq, Bool.or_eq_true, Bool.and_eq_true, Bool.and_eq_true,
    beq_iff_eq, beq_iff_eq, beq_iff_eq, beq_iff_eq] at h
  cases e1 with
  | mk a1 b1 =>
    cases e2 with
    | mk a2 b2 =>
      simp only at h
      rcases h with ⟨h1, h2⟩ | ⟨h1, h2⟩
      · rw [h1, h2]
      · rw [h1, h2]
        exact midpointPos_swap V F b2 a2

theorem getIndex_entry {el : EdgeList} {e : edge}
    (h : el.contains e = true) :
    ∃ p ∈ el.entries, edgeEq p.1 e = true ∧ el.getIndex e = p.2 := by
  rw [EdgeList.contains, List.any_eq_true] at h
  have hsome : (el.entries.find? (fun p => edgeEq p.1 e)).isSome := by
    rw [List.find?_isSome]
    exact h
  obtain ⟨p, hfind⟩ := Option.isSome_iff_exists.mp hsome
  have hp := List.find?_some hfind
  refine ⟨p, List.mem_of_find?_eq_some hfind, hp, ?_⟩
  rw [EdgeList.getIndex, hfind]
  rfl

theorem annotateFrom_map_fst (origMesh : List face) :
    ∀ (L : List face) (vl : List point3d) (el : EdgeList),
    (annotateFrom origMesh vl el L).map Prod.fst = L := by
  intro L
  induction L with
  | nil => intro vl el; rfl
  | cons f t ih =>
    intro vl el
    show f :: _ = f :: t
    rw [ih]

/-! ### Literal-index evaluation lemmas

Rewrite rules with literal indices, used to evaluate the model on the
concrete meshes (the generic successor lemmas introduce numerals that
block further reduction). -/

theorem getD_one {α : Type _} (a : α) (l : List α) (d : α) :
    (a :: l).getD 1 d = l.getD 0 d := rfl

theorem getD_two {α : Type _} (a : α) (l : List α) (d : α) :
    (a :: l).getD 2 d = l.getD 1 d := rfl

theorem getD_three {α : Type _} (a : α) (l : List α) (d : α) :
    (a :: l).getD 3 d = l.getD 2 d := rfl

theorem getD_four {α : Type _} (a : α) (l : List α) (d : α) :
    (a :: l).getD 4 d = l.getD 3 d := rfl

theorem getD_five {α : Type _} (a : α) (l : List α) (d : α) :
    (a :: l).getD 5 d = l.getD 4 d := rfl

theorem set_one {α : Type _} (a : α) (l : List α) (v : α) :
    (a :: l).set 1 v = a :: l.set 0 v := rfl

theorem set_two {α : Type _} (a : α) (l : List α) (v : α) :
    (a :: l).set 2 v = a :: l.set 1 v := rfl

theorem set_three {α : Type _} (a : α) (l : List α) (v : α) :
    (a :: l).set 3 v = a :: l.set 2 v := rfl

theorem set_four {α : Type _} (a : α) (l : List α) (v : α) :
    (a :: l).set 4 v = a :: l.set 3 v := rfl

theorem set_five {α : Type _} (a : α) (l : List α) (v : α) :
    (a :: l).set 5 v = a :: l.set 4 v := rfl

theorem range_three : List.range 3 = [0, 1, 2] := rfl

theorem replicate_three {α : Type _} (x : α) :
    List.replicate 3 x = [x, x, x] := rfl

theorem triSub_eq : subdivideFaces triV triF =
    (triVmid, triFout, ⟨[(⟨2, 0⟩, 5), (⟨1, 2⟩, 4), (⟨0, 1⟩, 3)]⟩) := by
  simp only [subdivideFaces, processFace, resolveFace, getNewVertex,
    EdgeList.contains, EdgeList.add, EdgeList.getIndex, isBoundaryEdge,
    incidentFaces, faceHasVertex, oppositeVertex, edgeEq, childFaces,
    triV, triF, triFout, triVmid,
    List.foldl_cons, List.foldl_nil, List.any_cons, List.any_nil,
    List.map_cons, List.map_nil, List.filter_cons, List.filter_nil,
    List.cons_append, List.nil_append, List.length_cons, List.length_nil,
    getD_one, getD_two, getD_three, getD_four, getD_five,
    List.getD_cons_zero, set_one, set_two, set_three, set_four, set_five,
    List.set_cons_zero, Nat.reduceAdd, Nat.reduceBEq, Nat.reduceBNe,
    reduceIte, Bool.or_true, Bool.true_or, Bool.or_false, Bool.false_or,
    Bool.and_true, Bool.true_and, Bool.and_false, Bool.false_and,
    point3d_smul_def, point3d_add_def, point3d_zero_def,
    Prod.mk.injEq, List.cons.injEq, EdgeList.mk.injEq, point3d.mk.injEq,
    face.mk.injEq, edge.mk.injEq, and_true, true_and]
  norm_num

theorem triRepos_eq : repositionAll triV triF triVmid = triVout := by
  simp only [repositionAll, accumulate, accumFace, bump,
    triV, triF, triVmid, triVout, range_three, replicate_three,
    List.foldl_cons, List.foldl_nil, List.length_cons, List.length_nil,
    getD_one, getD_two, getD_three, getD_four, getD_five,
    List.getD_cons_zero, set_one, set_two, set_three, set_four, set_five,
    List.set_cons_zero, Nat.reduceAdd,
    point3d_smul_def, point3d_add_def, point3d_zero_def,
    List.cons.injEq, point3d.mk.injEq, and_true, true_and]
  norm_num

theorem triPass_eq :
    loopSubdivision triV triF = some (triVout, triFout) := by
  rw [loopSubdivision_eq,
    if_pos (by decide : occurrencesOK triV triF = true), triSub_eq]
  show some (repositionAll triV triF triVmid, triFout) = _
  rw [triRepos_eq]

/-! ### The claims -/

/-- C1: every distinct undirected edge in the face list produces exactly
one midpoint vertex: a resolution of an already-registered edge (in
either endpoint order) returns the registered index and leaves the
vertex list and registry unchanged, and the phase-1 vertex list (hence
the vertex output of a successful pass) has length equal to the input
vertex count plus the number of distinct edges. -/
theorem C1_edge_dedup_vertex_count (V : List point3d) (F : List face) :
    (∀ (e : edge) (vl : List point3d) (el : EdgeList),
        el.contains e = true →
        getNewVertex e vl F el = (el.getIndex e, vl, el)) ∧
    (∀ (el : EdgeList) (a b : idxtype),
        el.contains ⟨a, b⟩ = el.contains ⟨b, a⟩) ∧
    (subdivideFaces V F).1.length = V.length + distinctEdgeCount F ∧
    (∀ V' F', loopSubdivision V F = some (V', F') →
        V'.length = V.length + distinctEdgeCount F) := by
  refine ⟨fun e vl el h => getNewVertex_of_contains vl F h,
    fun el a b => contains_swap el a b,
    (countInv_final V F).vert_count, ?_⟩
  intro V' F' hsome
  rw [loopSubdivision_eq] at hsome
  by_cases hok : occurrencesOK V F = true
  · rw [if_pos hok] at hsome
    injection Option.some.inj hsome with hV' hF'
    rw [← hV', repositionAll_length]
    exact (countInv_final V F).vert_count
  · rw [if_neg hok] at hsome
    exact absurd hsome (by simp)

/-- Witness for C1 at the single triangle and a concrete registry. -/
theorem C1_witness :
    EdgeList.contains ⟨[(⟨0, 1⟩, 5)]⟩ ⟨1, 0⟩ = true ∧
    getNewVertex ⟨1, 0⟩ [] triF ⟨[(⟨0, 1⟩, 5)]⟩ =
      (5, [], ⟨[(⟨0, 1⟩, 5)]⟩) ∧
    loopSubdivision triV triF = some (triVout, triFout) ∧
    triVout.length = triV.length + distinctEdgeCount triF := by
  refine ⟨by decide, ?_, triPass_eq, ?_⟩
  · rw [(C1_edge_dedup_vertex_count triV triF).1 ⟨1, 0⟩ []
      ⟨[(⟨0, 1⟩, 5)]⟩ (by decide)]
    decide
  · exact (C1_edge_dedup_vertex_count triV triF).2.2.2 triVout triFout
      triPass_eq

/-- C2: the emitted face list is exactly, in order, the four child
faces (v1,a,c), (a,b,c), (c,b,v3), (a,v2,b) of each original face (with
a, b, c the midpoint indices resolved for edges (v1,v2), (v2,v3),
(v3,v1)), so the output face count is four times the input count. -/
theorem C2_four_child_faces (V : List point3d) (F : List face) :
    (subdivideFaces V F).2.1 = childList (annotate V F) ∧
    (annotate V F).map Prod.fst = F ∧
    (subdivideFaces V F).2.1.length = 4 * F.length ∧
    (∀ V' F', loopSubdivision V F = some (V', F') →
        F' = childList (annotate V F) ∧ F'.length = 4 * F.length) := by
  have hm := subdivideFaces_mesh V F
  have hlen : (subdivideFaces V F).2.1.length = 4 * F.length := by
    rw [hm, childList_length, annotate, annotateFrom_length]
  refine ⟨hm, annotateFrom_map_fst F F V ⟨[]⟩, hlen, ?_⟩
  intro V' F' hsome
  rw [loopSubdivision_eq] at hsome
  by_cases hok : occurrencesOK V F = true
  · rw [if_pos hok] at hsome
    injection Option.some.inj hsome with hV' hF'
    rw [← hF']
    exact ⟨hm, hlen⟩
  · rw [if_neg hok] at hsome
    exact absurd hsome (by simp)

/-- Witness for C2 at the single triangle. -/
theorem C2_witness :
    loopSubdivision triV triF = some (triVout, triFout) ∧
    (triFout = childList (annotate triV triF) ∧
     triFout.length = 4 * triF.length) :=
  ⟨triPass_eq,
    (C2_four_child_faces triV triF).2.2.2 triVout triFout triPass_eq⟩

/-- C3: the midpoint vertex registered for an edge shared by exactly
two faces (with opposite vertices oA and oB) has position
3/8·(endpoints) + 1/8·(opposites), computed over the original vertex
positions. -/
theorem C3_interior_midpoint (V : List point3d) (F : List face)
    (hvalid : validMesh V F) (e : edge) (oA oB : idxtype)
    (htwo : (incidentFaces e F).map (fun f => oppositeVertex f e) =
      [oA, oB])
    (hreg : (subdivideFaces V F).2.2.contains e = true) :
    (subdivideFaces V F).1.getD
      ((subdivideFaces V F).2.2.getIndex e) 0 =
    (3/8 : ℚ) • (V.getD e.first 0 + V.getD e.second 0) +
    (1/8 : ℚ) • (V.getD oA 0 + V.getD oB 0) := by
  have hinv := posInv_final hvalid
  obtain ⟨p, hmem, hpe, hidx⟩ := getIndex_entry hreg
  have hentry := hinv.entries_pos p hmem
  rw [hidx, hentry.2, midpointPos_edgeEq hpe]
  have hB : isBoundaryEdge e F = (false, oA, oB) := by
    rw [isBoundaryEdge, htwo]
  simp [midpointPos, hB]

/-- Witness for C3 at the tetrahedron, edge (0,1). -/
theorem C3_witness :
    validMesh tetV tetF ∧
    (incidentFaces ⟨0, 1⟩ tetF).map
      (fun f => oppositeVertex f ⟨0, 1⟩) = [2, 3] ∧
    (subdivideFaces tetV tetF).2.2.contains ⟨0, 1⟩ = true ∧
    (subdivideFaces tetV tetF).1.getD
      ((subdivideFaces tetV tetF).2.2.getIndex ⟨0, 1⟩) 0 =
    (3/8 : ℚ) • (tetV.getD 0 0 + tetV.getD 1 0) +
    (1/8 : ℚ) • (tetV.getD 2 0 + tetV.getD 3 0) :=
  ⟨by decide, by decide, by decide,
    C3_interior_midpoint tetV tetF (by decide) ⟨0, 1⟩ 2 3
      (by decide) (by decide)⟩

/-- C4: the midpoint vertex registered for an edge incident to exactly
one face has position equal to the exact average of its two endpoint
positions. -/
theorem C4_boundary_midpoint (V : List point3d) (F : List face)
    (hvalid : validMesh V F) (e : edge) (oA : idxtype)
    (hone : (incidentFaces e F).map (fun f => oppositeVertex f e) = [oA])
    (hreg : (subdivideFaces V F).2.2.contains e = true) :
    (subdivideFaces V F).1.getD
      ((subdivideFaces V F).2.2.getIndex e) 0 =
    (1/2 : ℚ) • (V.getD e.first 0 + V.getD e.second 0) := by
  have hinv := posInv_final hvalid
  obtain ⟨p, hmem, hpe, hidx⟩ := getIndex_entry hreg
  have hentry := hinv.entries_pos p hmem
  rw [hidx, hentry.2, midpointPos_edgeEq hpe]
  have hB : isBoundaryEdge e F = (true, 0, 0) := by
    rw [isBoundaryEdge, hone]
  simp [midpointPos, hB]

/-- Witness for C4 at the single triangle, edge (0,1). -/
theorem C4_witness :
    validMesh triV triF ∧
    (incidentFaces ⟨0, 1⟩ triF).map
      (fun f => oppositeVertex f ⟨0, 1⟩) = [2] ∧
    (subdivideFaces triV triF).2.2.contains ⟨0, 1⟩ = true ∧
    (subdivideFaces triV triF).1.getD
      ((subdivideFaces triV triF).2.2.getIndex ⟨0, 1⟩) 0 =
    (1/2 : ℚ) • (triV.getD 0 0 + triV.getD 1 0) :=
  ⟨by decide, by decide, by decide,
    C4_boundary_midpoint triV triF (by decide) ⟨0, 1⟩ 2
      (by decide) (by decide)⟩

/-- C5: on a successful pass over a mesh of faces with pairwise
distinct vertices, every original vertex i contained in n faces is
repositioned to 5/8·old + (3/(16·n))·(per-face accumulated sum of the
other two vertices of each face containing i); the formula is the same
for boundary and interior vertices. -/
theorem C5_reposition_formula (V : List point3d) (F : List face)
    (hd : ∀ f ∈ F, distinctFace f) (i : idxtype) (hi : i < V.length)
    (n : Nat) (hn : (F.filter (fun f => faceHasVertex f i)).length = n)
    (_hpos : 0 < n) (V' : List point3d) (F' : List face)
    (hsome : loopSubdivision V F = some (V', F')) :
    V'.getD i 0 =
      (5/8 : ℚ) • V.getD i 0 +
      ((3 : ℚ) / (16 * (n : ℚ))) • neighborSum V F i := by
  rw [loopSubdivision_eq] at hsome
  by_cases hok : occurrencesOK V F = true
  swap
  · rw [if_neg hok] at hsome
    exact absurd hsome (by simp)
  rw [if_pos hok] at hsome
  injection Option.some.inj hsome with hV' hF'
  have hvl : i < (subdivideFaces V F).1.length := by
    have hvc : (subdivideFaces V F).1.length =
        V.length + (keysOf (edgeSeq F)).card :=
      (countInv_final V F).vert_count
    rw [hvc]
    exact Nat.lt_of_lt_of_le hi (Nat.le_add_right _ _)
  rw [← hV', repositionAll_getD, if_pos ⟨hi, hvl⟩,
    (accumulate_getD V F hi).1, (accumulate_getD V F hi).2,
    occCount_distinct hd i, hn]

/-- Witness for C5 at the single triangle, vertex 0 (n = 1). -/
theorem C5_witness :
    (∀ f ∈ triF, distinctFace f) ∧ 0 < triV.length ∧
    (triF.filter (fun f => faceHasVertex f 0)).length = 1 ∧
    loopSubdivision triV triF = some (triVout, triFout) ∧
    triVout.getD 0 0 =
      (5/8 : ℚ) • triV.getD 0 0 +
      ((3 : ℚ) / (16 * (1 : ℚ))) • neighborSum triV triF 0 :=
  ⟨by decide, by decide, by decide, triPass_eq,
    C5_reposition_formula triV triF (by decide) 0 (by decide) 1
      (by decide) (by decide) triVout triFout triPass_eq⟩

/-- C6: the output normal list has exactly one normal per output
vertex, and every normal whose angle-weighted accumulated vector is
non-zero has unit length after normalization (exactly, in the
real-arithmetic model). -/
theorem C6_normals_length_unit (V : List point3d) (F : List face) :
    (loopNormals V F).length =
      (repositionAll V F (subdivideFaces V F).1).length ∧
    ∀ i : Nat,
      (accumNormals ((repositionAll V F (subdivideFaces V F).1).map toR)
        (subdivideFaces V F).2.1).getD i 0 ≠ 0 →
      norm3 ((loopNormals V F).getD i 0) = 1 := by
  constructor
  · rw [loopNormals, normalStage, List.length_map, accumNormals_length,
      List.length_map]
  · intro i hne
    have hlt : i <
        (accumNormals ((repositionAll V F (subdivideFaces V F).1).map toR)
          (subdivideFaces V F).2.1).length := by
      by_contra h
      exact hne (getD_of_le _ 0 (Nat.le_of_not_lt h))
    have hmap : (loopNormals V F).getD i 0 =
        vnormalize ((accumNormals
          ((repositionAll V F (subdivideFaces V F).1).map toR)
          (subdivideFaces V F).2.1).getD i 0) := by
      rw [loopNormals, normalStage]
      exact getD_map_lt vnormalize _ 0 0 hlt
    rw [hmap]
    exact norm3_vnormalize hne

theorem normFace_getD_other (verts : List vec3R) (dn : List vec3R)
    (f : face) {i : Nat} (h1 : f.v1 ≠ i) (h2 : f.v2 ≠ i) (h3 : f.v3 ≠ i)
    (hlen : i < dn.length) :
    (normFace verts dn f).getD i 0 = dn.getD i 0 := by
  show (bump (bump (bump dn _ _) _ _) _ _).getD i 0 = _
  rw [bump_getD _ _ _ (by rw [bump_length, bump_length]; exact hlen),
    bump_getD _ _ _ (by rw [bump_length]; exact hlen),
    bump_getD _ _ _ hlen,
    if_neg h1, if_neg h2, if_neg h3, add_zero, add_zero, add_zero]

theorem normFace_getD_v1 (verts : List vec3R) (dn : List vec3R)
    (f : face) {i : Nat} (h1 : f.v1 = i) (h2 : f.v2 ≠ i) (h3 : f.v3 ≠ i)
    (hlen : i < dn.length) :
    (normFace verts dn f).getD i 0 =
      dn.getD i 0 +
      angleAtVertex (verts.getD f.v1 0) (verts.getD f.v2 0)
          (verts.getD f.v3 0) •
        computeNormal (verts.getD f.v1 0) (verts.getD f.v2 0)
          (verts.getD f.v3 0) := by
  show (bump (bump (bump dn _ _) _ _) _ _).getD i 0 = _
  rw [bump_getD _ _ _ (by rw [bump_length, bump_length]; exact hlen),
    bump_getD _ _ _ (by rw [bump_length]; exact hlen),
    bump_getD _ _ _ hlen,
    if_pos h1, if_neg h2, if_neg h3, add_zero, add_zero]

theorem c6Sub_eq : subdivideFaces c6V c6F =
    (c6Vmid, triFout, ⟨[(⟨2, 0⟩, 5), (⟨1, 2⟩, 4), (⟨0, 1⟩, 3)]⟩) := by
  simp only [subdivideFaces, processFace, resolveFace, getNewVertex,
    EdgeList.contains, EdgeList.add, EdgeList.getIndex, isBoundaryEdge,
    incidentFaces, faceHasVertex, oppositeVertex, edgeEq, childFaces,
    c6V, c6F, triFout, c6Vmid,
    List.foldl_cons, List.foldl_nil, List.any_cons, List.any_nil,
    List.map_cons, List.map_nil, List.filter_cons, List.filter_nil,
    List.cons_append, List.nil_append, List.length_cons, List.length_nil,
    getD_one, getD_two, getD_three, getD_four, getD_five,
    List.getD_cons_zero, set_one, set_two, set_three, set_four, set_five,
    List.set_cons_zero, Nat.reduceAdd, Nat.reduceBEq, Nat.reduceBNe,
    reduceIte, Bool.or_true, Bool.true_or, Bool.or_false, Bool.false_or,
    Bool.and_true, Bool.true_and, Bool.and_false, Bool.false_and,
    point3d_smul_def, point3d_add_def, point3d_zero_def,
    Prod.mk.injEq, List.cons.injEq, EdgeList.mk.injEq, point3d.mk.injEq,
    face.mk.injEq, edge.mk.injEq, and_true, true_and]
  norm_num

theorem c6Repos_eq : repositionAll c6V c6F c6Vmid = c6Vout := by
  simp only [repositionAll, accumulate, accumFace, bump,
    c6V, c6F, c6Vmid, c6Vout, range_three, replicate_three,
    List.foldl_cons, List.foldl_nil, List.length_cons, List.length_nil,
    getD_one, getD_two, getD_three, getD_four, getD_five,
    List.getD_cons_zero, set_one, set_two, set_three, set_four, set_five,
    List.set_cons_zero, Nat.reduceAdd,
    point3d_smul_def, point3d_add_def, point3d_zero_def,
    List.cons.injEq, point3d.mk.injEq, and_true, true_and]
  norm_num

theorem c6map_eq :
    (repositionAll c6V c6F (subdivideFaces c6V c6F).1).map toR = c6VR := by
  rw [c6Sub_eq]
  show (repositionAll c6V c6F c6Vmid).map toR = _
  rw [c6Repos_eq]
  simp only [c6Vout, c6VR, List.map_cons, List.map_nil]

theorem c6_d1 : toR ⟨2, 1/2, 0⟩ - toR ⟨3/2, 0, 0⟩ =
    (⟨1/2, 1/2, 0⟩ : vec3R) := by
  rw [toR, toR, vec3R_sub_def]
  apply vec3R_ext <;> push_cast <;> norm_num

theorem c6_d2 : toR ⟨2, -1/2, 0⟩ - toR ⟨3/2, 0, 0⟩ =
    (⟨1/2, -(1/2), 0⟩ : vec3R) := by
  rw [toR, toR, vec3R_sub_def]
  apply vec3R_ext <;> push_cast <;> norm_num

theorem c6_angle :
    angleAtVertex (toR ⟨3/2, 0, 0⟩) (toR ⟨2, 1/2, 0⟩) (toR ⟨2, -1/2, 0⟩) =
    Real.pi / 2 := by
  rw [angleAtVertex, c6_d1, c6_d2]
  have hdot : dot3 ⟨1/2, 1/2, 0⟩ ⟨1/2, -(1/2), 0⟩ = 0 := by
    rw [dot3]
    norm_num
  rw [hdot, zero_div, Real.arccos_zero]

theorem c6_cross :
    computeNormal (toR ⟨3/2, 0, 0⟩) (toR ⟨2, 1/2, 0⟩) (toR ⟨2, -1/2, 0⟩) =
    (⟨0, 0, -(1/2)⟩ : vec3R) := by
  rw [computeNormal, c6_d1, c6_d2, cross3]
  apply vec3R_ext <;> norm_num

theorem c6_acc0 : (accumNormals c6VR triFout).getD 0 0 =
    (⟨0, 0, -(Real.pi/4)⟩ : vec3R) := by
  have hlen6 : c6VR.length = 6 := by
    simp [c6VR]
  rw [accumNormals, hlen6]
  simp only [triFout, List.foldl_cons, List.foldl_nil]
  have hr : (List.replicate 6 (0 : vec3R)).length = 6 := by simp
  have l1 : (normFace c6VR (List.replicate 6 (0 : vec3R)) ⟨0, 3, 5⟩).length
      = 6 := by rw [normFace_length, hr]
  have l2 : (normFace c6VR
      (normFace c6VR (List.replicate 6 (0 : vec3R)) ⟨0, 3, 5⟩)
      ⟨3, 4, 5⟩).length = 6 := by rw [normFace_length, l1]
  have l3 : (normFace c6VR (normFace c6VR
      (normFace c6VR (List.replicate 6 (0 : vec3R)) ⟨0, 3, 5⟩)
      ⟨3, 4, 5⟩) ⟨5, 4, 2⟩).length = 6 := by rw [normFace_length, l2]
  rw [normFace_getD_other c6VR _ ⟨3, 1, 4⟩ (by decide) (by decide)
      (by decide) (by rw [l3]; norm_num),
    normFace_getD_other c6VR _ ⟨5, 4, 2⟩ (by decide) (by decide)
      (by decide) (by rw [l2]; norm_num),
    normFace_getD_other c6VR _ ⟨3, 4, 5⟩ (by decide) (by decide)
      (by decide) (by rw [l1]; norm_num),
    normFace_getD_v1 c6VR _ ⟨0, 3, 5⟩ (by decide) (by decide)
      (by decide) (by rw [hr]; norm_num),
    getD_replicate_zero, zero_add]
  show angleAtVertex (c6VR.getD 0 0) (c6VR.getD 3 0) (c6VR.getD 5 0) •
      computeNormal (c6VR.getD 0 0) (c6VR.getD 3 0) (c6VR.getD 5 0) = _
  have h0 : c6VR.getD 0 0 = toR ⟨3/2, 0, 0⟩ := rfl
  have h3 : c6VR.getD 3 0 = toR ⟨2, 1/2, 0⟩ := rfl
  have h5 : c6VR.getD 5 0 = toR ⟨2, -1/2, 0⟩ := rfl
  rw [h0, h3, h5, c6_angle, c6_cross, vec3R_smul_def]
  apply vec3R_ext <;> show _ = _ <;> ring

/-- Witness for C6 at the right-angled subdivided triangle, vertex 0:
its accumulated normal is (0, 0, -pi/4), non-zero, and the output
normal at index 0 therefore has unit length. -/
theorem C6_witness :
    (accumNormals
      ((repositionAll c6V c6F (subdivideFaces c6V c6F).1).map toR)
      (subdivideFaces c6V c6F).2.1).getD 0 0 ≠ 0 ∧
    norm3 ((loopNormals c6V c6F).getD 0 0) = 1 := by
  have hmesh : (subdivideFaces c6V c6F).2.1 = triFout := by
    rw [c6Sub_eq]
  have hne : (accumNormals
      ((repositionAll c6V c6F (subdivideFaces c6V c6F).1).map toR)
      (subdivideFaces c6V c6F).2.1).getD 0 0 ≠ 0 := by
    rw [c6map_eq, hmesh, c6_acc0]
    intro h
    have hz := congrArg vec3R.z h
    simp only [vec3R_zero_def] at hz
    rw [neg_eq_zero, div_eq_zero_iff] at hz
    rcases hz with hz | hz
    · exact Real.pi_ne_zero hz
    · norm_num at hz
  exact ⟨hne, (C6_normals_length_unit c6V c6F).2 0 hne⟩

/-- C7 counterexample: the face list references vertex index 5, out of
range for the 3-vertex input, yet the pass completes and returns a
subdivided mesh instead of failing with an assertion or error: no
index-validity check exists in the code. -/
theorem C7_counterexample :
    ¬ validMesh triV [⟨0, 1, 2⟩, ⟨0, 1, 5⟩] ∧
    (loopSubdivision triV [⟨0, 1, 2⟩, ⟨0, 1, 5⟩]).isSome = true := by
  constructor
  · intro h
    have := h ⟨0, 1, 5⟩ (by decide)
    simp [triV] at this
  · decide

/-- C7 (amended): the only precondition the pass checks is the
occurrence assertion: it returns a result iff every vertex index below
the input vertex count occurs in some face; invalid vertex indices and
non-manifold edges are not detected. -/
theorem C7_only_occurrence_check (V : List point3d) (F : List face) :
    (loopSubdivision V F).isSome = true ↔
    ∀ i < V.length, ∃ f ∈ F, faceHasVertex f i = true := by
  rw [loopSubdivision_isSome, occurrencesOK_iff]

/-- Witness for C7 at the single triangle (all vertices referenced). -/
theorem C7_witness :
    (∀ i < triV.length, ∃ f ∈ triF, faceHasVertex f i = true) ∧
    (loopSubdivision triV triF).isSome = true :=
  ⟨by decide, (C7_only_occurrence_check triV triF).mpr (by decide)⟩

/-- C8: the pass is a pure function of (vertices, faces): its outputs
do not depend on the prior contents of the caller's output buffers, and
two invocations on equal inputs return equal outputs. -/
theorem C8_pure_deterministic (d1 d1' : List point3d)
    (d2 d2' : List face) (d3 d3' : List vec3R)
    (V W : List point3d) (F G : List face) (hV : V = W) (hF : F = G) :
    loopSubdivisionBuf d1 d2 V F = loopSubdivisionBuf d1' d2' W G ∧
    loopSubdivisionBuf d1 d2 V F = loopSubdivision V F ∧
    loopNormalsBuf d3 V F = loopNormalsBuf d3' W G ∧
    loopNormalsBuf d3 V F = loopNormals V F := by
  subst hV
  subst hF
  exact ⟨rfl, rfl, rfl, rfl⟩

/-- Witness for C8 with junk initial buffer contents. -/
theorem C8_witness :
    loopSubdivisionBuf [⟨1, 1, 1⟩] [⟨9, 9, 9⟩] triV triF =
      loopSubdivisionBuf [] [] triV triF ∧
    loopSubdivisionBuf [⟨1, 1, 1⟩] [⟨9, 9, 9⟩] triV triF =
      loopSubdivision triV triF ∧
    loopNormalsBuf [⟨1, 0, 0⟩] triV triF =
      loopNormalsBuf [] triV triF ∧
    loopNormalsBuf [⟨1, 0, 0⟩] triV triF = loopNormals triV triF :=
  C8_pure_deterministic [⟨1, 1, 1⟩] [] [⟨9, 9, 9⟩] [] [⟨1, 0, 0⟩] []
    triV triV triF triF rfl rfl

/-- C9: the repositioning loop writes only the first (input vertex
count) entries of the vertex list: its output has the same length as
the phase-1 list and agrees with it on every appended midpoint index. -/
theorem C9_reposition_frame (V : List point3d) (F : List face) :
    (repositionAll V F (subdivideFaces V F).1).length =
      (subdivideFaces V F).1.length ∧
    ∀ i, V.length ≤ i →
      (repositionAll V F (subdivideFaces V F).1).getD i 0 =
      (subdivideFaces V F).1.getD i 0 := by
  refine ⟨repositionAll_length V F _, fun i hi => ?_⟩
  rw [repositionAll_getD, if_neg (by omega)]

/-- Witness for C9 at the single triangle, midpoint index 4. -/
theorem C9_witness :
    triV.length ≤ 4 ∧
    (repositionAll triV triF (subdivideFaces triV triF).1).getD 4 0 =
      (subdivideFaces triV triF).1.getD 4 0 :=
  ⟨by decide, (C9_reposition_frame triV triF).2 4 (by decide)⟩

/-- C10: on valid input, phase 1 keeps every original vertex position
unchanged (the output list starts as a copy of the input), and every
registered midpoint holds exactly the position given by the
boundary/interior formula evaluated over the ORIGINAL input positions:
the midpoint computations never read repositioned values. -/
theorem C10_midpoints_read_originals (V : List point3d) (F : List face)
    (hvalid : validMesh V F) :
    (∀ i < V.length, (subdivideFaces V F).1.getD i 0 = V.getD i 0) ∧
    (∀ p ∈ (subdivideFaces V F).2.2.entries,
        p.2 < (subdivideFaces V F).1.length ∧
        (subdivideFaces V F).1.getD p.2 0 = midpointPos V F p.1) := by
  have h := posInv_final hvalid
  exact ⟨h.orig_kept, h.entries_pos⟩

/-- Witness for C10 at the single triangle, edge (0,1) → index 3. -/
theorem C10_witness :
    validMesh triV triF ∧
    ((⟨0, 1⟩, 3) : edge × idxtype) ∈
      (subdivideFaces triV triF).2.2.entries ∧
    (subdivideFaces triV triF).1.getD 3 0 = midpointPos triV triF ⟨0, 1⟩ :=
  ⟨by decide, by decide,
    ((C10_midpoints_read_originals triV triF (by decide)).2
      (⟨0, 1⟩, 3) (by decide)).2⟩

end Loop
